import Mathlib

/-! Shallow embedding of the consolekit command registry, completion builder,
context manager and model-selection heuristic, with proofs about them.

Modelling conventions:
* Go maps are modelled extensionally as functions into Option; a nil map and
  an empty map are both the constantly-none function (the embedded code never
  distinguishes the two observably).
* Go float64 arithmetic on relevance scores is modelled by exact rational
  arithmetic; the decimal literals of the source denote the corresponding
  exact rationals.
* Go time.Time values are modelled by rational timestamps measured in
  minutes, since the code only ever reads elapsed durations in minutes.
* Go errors are modelled as Option String: none is the nil error.
* Machine integers are modelled as Int; the quantities involved stay far
  from the 64-bit overflow boundary.
-/

/-- Extensional update of a map modelled as a function into Option. -/
def mapUpdate {κ β : Type} [DecidableEq κ] (m : κ → Option β) (k : κ) (v : β) :
    κ → Option β :=
  fun q => if q = k then some v else m q

namespace Command

/-- Result type of a Go function returning error: none is the nil error. -/
abbrev GoError := Option String

/-- The Handler interface of pkg/command/registry.go. -/
structure Handler where
  Execute : List String → GoError
  Description : String

/-- ArgumentCompletion from the completion source file of pkg/command. -/
structure ArgumentCompletion where
  Position : Int
  Options : List String
  Dynamic : Option (Unit → List String)
  Flags : String → Option (List String)

/-- The Command struct of pkg/command/registry.go.  The Subcommands field is
never written with a nonempty map nor read by any modelled operation, so it
is omitted from the embedding. -/
structure Command where
  Name : String
  Handler : Handler
  Description : String
  Completions : Int → Option ArgumentCompletion

/-- The Registry struct of pkg/command/registry.go. -/
structure Registry where
  commands : String → Option Command

/-- NewRegistry from pkg/command/registry.go. -/
def NewRegistry : Registry := ⟨fun _ => none⟩

/-- strings.ToLower as used by the registry.  The embedding lowercases the
basic latin letters, which covers every command name in the repository. -/
def strToLower (s : String) : String := ⟨s.data.map Char.toLower⟩

/-- Register from pkg/command/registry.go: stores the command under the name
exactly as given. -/
def Registry.Register (r : Registry) (name : String) (handler : Handler)
    (description : String) : Registry :=
  { r with commands :=
      mapUpdate r.commands name ⟨name, handler, description, fun _ => none⟩ }

/-- Execute from pkg/command/registry.go: looks the name up lowercased.  The
method never assigns to the receiver, which the embedding records by
returning the receiver unchanged alongside the error value. -/
def Registry.Execute (r : Registry) (name : String) (args : List String) :
    Registry × GoError :=
  match r.commands (strToLower name) with
  | none =>
      (r, some ("unknown command: " ++ name ++ ". Type 'help' for a list of commands"))
  | some command => (r, command.Handler.Execute args)

/-- CompletionBuilder from the completion source file of pkg/command. -/
structure CompletionBuilder where
  completions : Int → Option ArgumentCompletion
  flags : String → Option (List String)

/-- NewCompletionBuilder. -/
def NewCompletionBuilder : CompletionBuilder := ⟨fun _ => none, fun _ => none⟩

/-- AddPosition: the stored entry has zero-valued Dynamic and Flags fields. -/
def CompletionBuilder.AddPosition (cb : CompletionBuilder) (pos : Int)
    (options : List String) : CompletionBuilder :=
  { cb with completions :=
      mapUpdate cb.completions pos ⟨pos, options, none, fun _ => none⟩ }

/-- AddDynamicPosition: stores the generator itself; the entry has
zero-valued Options and Flags fields. -/
def CompletionBuilder.AddDynamicPosition (cb : CompletionBuilder) (pos : Int)
    (generator : Unit → List String) : CompletionBuilder :=
  { cb with completions :=
      mapUpdate cb.completions pos ⟨pos, [], some generator, fun _ => none⟩ }

/-- AddFlag. -/
def CompletionBuilder.AddFlag (cb : CompletionBuilder) (flag : String)
    (options : List String) : CompletionBuilder :=
  { cb with flags := mapUpdate cb.flags flag options }

/-- AddDynamicFlag: the generator is invoked once, at registration time, and
the returned list is stored. -/
def CompletionBuilder.AddDynamicFlag (cb : CompletionBuilder) (flag : String)
    (generator : Unit → List String) : CompletionBuilder :=
  { cb with flags := mapUpdate cb.flags flag (generator ()) }

/-- Build: copies the flag map onto every positional entry, the builder flag
map taking precedence over any flags already present on the entry. -/
def CompletionBuilder.Build (cb : CompletionBuilder) :
    Int → Option ArgumentCompletion :=
  fun pos => (cb.completions pos).map fun completion =>
    { completion with Flags := fun flag =>
        match cb.flags flag with
        | some options => some options
        | none => completion.Flags flag }

/-- One call on a CompletionBuilder. -/
inductive BuilderOp
  | addPosition (pos : Int) (options : List String)
  | addDynamicPosition (pos : Int) (generator : Unit → List String)
  | addFlag (flag : String) (options : List String)
  | addDynamicFlag (flag : String) (generator : Unit → List String)

/-- Apply one builder call. -/
def applyOp (cb : CompletionBuilder) : BuilderOp → CompletionBuilder
  | .addPosition pos options => cb.AddPosition pos options
  | .addDynamicPosition pos generator => cb.AddDynamicPosition pos generator
  | .addFlag flag options => cb.AddFlag flag options
  | .addDynamicFlag flag generator => cb.AddDynamicFlag flag generator

/-- Run a sequence of builder calls on a fresh builder. -/
def runOps (ops : List BuilderOp) : CompletionBuilder :=
  ops.foldl applyOp NewCompletionBuilder

/-- A generator instrumented with an invocation counter: calling it returns
the list of the underlying pure generator and bumps the counter. -/
def countedGen (generator : Unit → List String) : Nat → List String × Nat :=
  fun calls => (generator (), calls + 1)

/-- AddDynamicFlag re-expressed over an instrumented generator, following the
source line for line: the generator is called once and its result stored. -/
def AddDynamicFlagCounted (cb : CompletionBuilder) (flag : String)
    (generator : Nat → List String × Nat) (calls : Nat) :
    CompletionBuilder × Nat :=
  let result := generator calls
  ({ cb with flags := mapUpdate cb.flags flag result.1 }, result.2)

end Command

namespace Intel

/-- ContextType from pkg/intel/context.go. -/
inductive ContextType
  | system
  | domain
  | state
  | history
  | prompt
  | user
deriving DecidableEq

/-- ContextItem from pkg/intel/context.go.  Timestamps are rational minutes;
Relevance is the exact rational model of the float64 score. -/
structure ContextItem where
  ID : String
  type : ContextType
  Content : String
  Timestamp : ℚ
  Relevance : ℚ
  TokenCount : Int
  IsEssential : Bool
deriving DecidableEq

/-- ContextManager from pkg/intel/context.go. -/
structure ContextManager where
  maxTokens : Int
  currentTokens : Int
  relevanceDecay : ℚ
  items : List ContextItem
deriving DecidableEq

/-- NewContextManager. -/
def NewContextManager (maxTokens : Int) : ContextManager :=
  { maxTokens := maxTokens, currentTokens := 0, relevanceDecay := 0.9, items := [] }

/-- estimateTokens: len(text) / 4, with len counting bytes as in Go. -/
def ContextManager.estimateTokens (_cm : ContextManager) (text : String) : Int :=
  Int.ofNat (text.utf8ByteSize / 4)

/-- calculateInitialRelevance.  (The default arm of the source returns 0.5
for integer values outside the six declared constants; the inductive type
makes that arm unreachable.) -/
def calculateInitialRelevance : ContextType → ℚ
  | .system => 1.0
  | .domain => 0.9
  | .state => 0.8
  | .prompt => 0.7
  | .history => 0.6
  | .user => 0.9

/-- The loop of removeItem: token count and remainder after removing the
first item with the given id (the loop breaks after the first match);
(0, unchanged list) when no item matches. -/
def removeFirstById (id : String) : List ContextItem → Int × List ContextItem
  | [] => (0, [])
  | item :: rest =>
    if item.ID = id then (item.TokenCount, rest)
    else
      let r := removeFirstById id rest
      (r.1, item :: r.2)

/-- removeItem. -/
def ContextManager.removeItem (cm : ContextManager) (id : String) :
    ContextManager :=
  let r := removeFirstById id cm.items
  { cm with currentTokens := cm.currentTokens - r.1, items := r.2 }

/-- The age factor of updateRelevanceScores: per-type linear decay in the
age in minutes, floored at 0.1.  The floor applies to the factor, not to the
resulting relevance. -/
def decayAgeFactor (contextType : ContextType) (ageMinutes : ℚ) : ℚ :=
  let raw : ℚ :=
    match contextType with
    | .history => 1.0 - ageMinutes / 60.0 * 0.5
    | .state => 1.0 - ageMinutes / 120.0 * 0.3
    | .system => 1.0
    | .domain => 1.0
    | .prompt => 1.0 - ageMinutes / 90.0 * 0.4
    | .user => 1.0 - ageMinutes / 90.0 * 0.4
  if raw < 0.1 then 0.1 else raw

/-- One item of updateRelevanceScores: the relevance is multiplied by the
age factor. -/
def ageItem (now : ℚ) (item : ContextItem) : ContextItem :=
  { item with
    Relevance := item.Relevance * decayAgeFactor item.type (now - item.Timestamp) }

/-- updateRelevanceScores. -/
def ContextManager.updateRelevanceScores (cm : ContextManager) (now : ℚ) :
    ContextManager :=
  { cm with items := cm.items.map (ageItem now) }

/-- The sort order of optimize: essential items first, then by descending
relevance.  This is the non-strict total preorder corresponding to the
strict comparison passed to sort.Slice. -/
def optLE (a b : ContextItem) : Prop :=
  (a.IsEssential = b.IsEssential ∧ b.Relevance ≤ a.Relevance) ∨
    (a.IsEssential = true ∧ b.IsEssential = false)

instance : DecidableRel optLE := fun a b =>
  inferInstanceAs (Decidable ((a.IsEssential = b.IsEssential ∧
    b.Relevance ≤ a.Relevance) ∨ (a.IsEssential = true ∧ b.IsEssential = false)))

/-- The eviction target of optimize: int(float64(maxTokens) * 0.8), which
for the nonnegative budgets quantified over below equals the floor of 0.8
times the budget. -/
def evictTarget (maxTokens : Int) : Int := maxTokens * 4 / 5

/-- The eviction scan of optimize: remove the last item of the (sorted) list
that is not essential, i.e. the least relevant non-essential item; none when
every item is essential. -/
def removeLastNonEssential :
    List ContextItem → Option (ContextItem × List ContextItem)
  | [] => none
  | item :: rest =>
    match removeLastNonEssential rest with
    | some r => some (r.1, item :: r.2)
    | none => if item.IsEssential then none else some (item, rest)

/-- The eviction loop of optimize.  The fuel argument, instantiated with the
length of the list (an upper bound on the number of iterations, since every
iteration removes one item), makes the recursion structural and hence
kernel-computable. -/
def evictLoop (target : Int) : Nat → Int → List ContextItem → Int × List ContextItem
  | 0, cur, items => (cur, items)
  | fuel + 1, cur, items =>
    if target < cur ∧ items ≠ [] then
      match removeLastNonEssential items with
      | none => (cur, items)
      | some r => evictLoop target fuel (cur - r.1.TokenCount) r.2
    else (cur, items)

/-- optimize. -/
def ContextManager.optimize (cm : ContextManager) (now : ℚ) : ContextManager :=
  let cm1 := cm.updateRelevanceScores now
  let sorted := List.insertionSort optLE cm1.items
  let r := evictLoop (evictTarget cm1.maxTokens) sorted.length cm1.currentTokens sorted
  { cm1 with currentTokens := r.1, items := r.2 }

/-- AddContext. -/
def ContextManager.AddContext (cm : ContextManager) (now : ℚ) (id : String)
    (contextType : ContextType) (content : String) (isEssential : Bool) :
    ContextManager :=
  let tokens := cm.estimateTokens content
  let item : ContextItem :=
    { ID := id, type := contextType, Content := content, Timestamp := now,
      Relevance := calculateInitialRelevance contextType, TokenCount := tokens,
      IsEssential := isEssential }
  let cm1 := cm.removeItem id
  let cm2 := { cm1 with items := cm1.items ++ [item],
                        currentTokens := cm1.currentTokens + tokens }
  if cm2.maxTokens < cm2.currentTokens then cm2.optimize now else cm2

/-- Clear. -/
def ContextManager.Clear (cm : ContextManager) : ContextManager :=
  { cm with items := [], currentTokens := 0 }

/-- The filtering loop of PruneHistory: total token count of the dropped
items together with the remaining list. -/
def pruneAux (cutoff : ℚ) : List ContextItem → Int × List ContextItem
  | [] => (0, [])
  | item :: rest =>
    let r := pruneAux cutoff rest
    if item.type = ContextType.history ∧ item.Timestamp < cutoff ∧
        item.IsEssential = false then
      (r.1 + item.TokenCount, r.2)
    else
      (r.1, item :: r.2)

/-- PruneHistory: drops non-essential history items older than 30 minutes. -/
def ContextManager.PruneHistory (cm : ContextManager) (now : ℚ) : ContextManager :=
  let r := pruneAux (now - 30) cm.items
  { cm with currentTokens := cm.currentTokens - r.1, items := r.2 }

/-- SetMaxTokens. -/
def ContextManager.SetMaxTokens (cm : ContextManager) (now : ℚ) (maxTokens : Int) :
    ContextManager :=
  let cm1 := { cm with maxTokens := maxTokens }
  if cm1.maxTokens < cm1.currentTokens then cm1.optimize now else cm1

/-- getTypePriority.  (The default arm of the source returns 40 for integer
values outside the six declared constants; the inductive type makes that arm
unreachable.) -/
def getTypePriority : ContextType → Int
  | .system => 100
  | .domain => 90
  | .prompt => 80
  | .state => 70
  | .history => 60
  | .user => 50

/-- PromptType from pkg/intel/providers.go is a string type. -/
abbrev PromptType := String

/-- The sort order of BuildPrompt: by per-type priority, ties within a type
broken by descending relevance; the non-strict total preorder corresponding
to the strict comparison passed to sort.Slice. -/
def promptLE (a b : ContextItem) : Prop :=
  (a.type = b.type ∧ b.Relevance ≤ a.Relevance) ∨
    (a.type ≠ b.type ∧ getTypePriority b.type ≤ getTypePriority a.type)

instance : DecidableRel promptLE := fun a b =>
  inferInstanceAs (Decidable ((a.type = b.type ∧ b.Relevance ≤ a.Relevance) ∨
    (a.type ≠ b.type ∧ getTypePriority b.type ≤ getTypePriority a.type)))

/-- BuildPrompt.  The method mutates the receiver only through the relevance
update (it sorts a copy of the item slice), which the embedding records by
also returning the updated manager. -/
def ContextManager.BuildPrompt (cm : ContextManager) (now : ℚ)
    (userQuery : String) (_promptType : PromptType) : String × ContextManager :=
  let cm1 := cm.updateRelevanceScores now
  let sortedItems := List.insertionSort promptLE cm1.items
  let body := sortedItems.foldl
    (fun acc item =>
      if item.type = ContextType.user then acc else acc ++ item.Content ++ "\n\n") ""
  (body ++ "Query: " ++ userQuery ++ "\n\nResponse:", cm1)

/-- ModelInfo from the model-manager source file of pkg/intel. -/
structure ModelInfo where
  Name : String
  Size : String
  Description : String
  Specialty : String
  MinRAM : Int
  Recommended : Bool
deriving DecidableEq

/-- Specialty constant. -/
def SpecialtyGeneral : String := "general"

/-- Specialty constant. -/
def SpecialtyCoding : String := "coding"

/-- Specialty constant. -/
def SpecialtySecurity : String := "security"

/-- Specialty constant. -/
def SpecialtyFast : String := "fast"

/-- The RecommendedModels catalog, verbatim. -/
def RecommendedModels : List ModelInfo :=
  [ { Name := "phi3:3.8b", Size := "2.2GB",
      Description := "Microsoft Phi-3 Mini - Fast and capable general-purpose model",
      Specialty := SpecialtyGeneral, MinRAM := 4, Recommended := true },
    { Name := "llama3.2:3b", Size := "2.0GB",
      Description := "Meta Llama 3.2 - Excellent for reasoning and analysis",
      Specialty := SpecialtyGeneral, MinRAM := 4, Recommended := true },
    { Name := "qwen2.5:3b", Size := "1.9GB",
      Description := "Qwen 2.5 - Strong coding and technical assistance",
      Specialty := SpecialtyCoding, MinRAM := 4, Recommended := true },
    { Name := "gemma2:2b", Size := "1.6GB",
      Description := "Google Gemma 2 - Lightweight and fast",
      Specialty := SpecialtyFast, MinRAM := 2, Recommended := false },
    { Name := "codellama:7b", Size := "3.8GB",
      Description := "Meta Code Llama - Specialized for coding tasks",
      Specialty := SpecialtyCoding, MinRAM := 8, Recommended := false },
    { Name := "llama3.2:1b", Size := "1.3GB",
      Description := "Meta Llama 3.2 1B - Ultra-lightweight option",
      Specialty := SpecialtyFast, MinRAM := 2, Recommended := false } ]

/-- The preference switch of AutoSelectModel: the last preference falling in
a known bucket wins; unknown strings leave the choice unchanged. -/
def preferredSpecialtyOf (preferences : List String) : String :=
  preferences.foldl
    (fun acc pref =>
      match Command.strToLower pref with
      | "coding" | "code" | "development" => SpecialtyCoding
      | "security" | "pentest" | "audit" => SpecialtySecurity
      | "fast" | "lightweight" | "quick" => SpecialtyFast
      | "general" | "analysis" | "reasoning" => SpecialtyGeneral
      | _ => acc) ""

/-- The score given to one model that fits in RAM.  The +5 for fitting is
included unconditionally because scoring is only reached for fitting models
(the source skips the others with continue before any further addend). -/
def modelScore (preferFast : Bool) (preferredSpecialty : String)
    (model : ModelInfo) : Int :=
  (if model.Recommended then 10 else 0) + 5 +
    (if preferredSpecialty ≠ "" ∧ model.Specialty = preferredSpecialty then 8 else 0) +
    (if preferFast = true ∧ model.Specialty = SpecialtyFast then 5 else 0) +
    (if preferredSpecialty = "" ∧ model.Specialty = SpecialtyGeneral then 3 else 0)

/-- One iteration of the scoring loop: models that do not fit in RAM are
skipped outright; a fitting model replaces the incumbent only on a strictly
larger score. -/
def selectStep (systemRAM : Int) (preferFast : Bool) (preferredSpecialty : String)
    (best : Int × String) (model : ModelInfo) : Int × String :=
  if model.MinRAM ≤ systemRAM then
    let score := modelScore preferFast preferredSpecialty model
    if best.1 < score then (score, model.Name) else best
  else best

/-- AutoSelectModel.  The estimated system RAM (derived in the source from
runtime memory statistics, machine state outside the embedding) is passed as
a parameter; preferFast mirrors systemRAM < 8. -/
def AutoSelectModel (systemRAM : Int) (preferences : List String) : String :=
  let preferFast := decide (systemRAM < 8)
  let preferredSpecialty := preferredSpecialtyOf preferences
  let best := RecommendedModels.foldl
    (selectStep systemRAM preferFast preferredSpecialty) (-1, "")
  if best.2 = "" then
    match RecommendedModels.find? (fun m => m.Recommended && decide (m.MinRAM ≤ 4)) with
    | some m => m.Name
    | none => "phi3:3.8b"
  else best.2

end Intel

namespace Command

/-- A sample handler whose Execute always succeeds (returns the nil error). -/
def sampleHandler : Handler := ⟨fun _ => none, "sample"⟩

/-- The builder call sequence of the spec example: positions 0 and 1 and the
flag --x with one option. -/
def twoPositionsOneFlag : List BuilderOp :=
  [.addPosition 0 [], .addPosition 1 [], .addFlag "--x" ["a"]]

end Command

namespace Intel

/-- The sum of the TokenCount fields of a list of items. -/
def tokenSum (items : List ContextItem) : Int :=
  (items.map ContextItem.TokenCount).sum

/-- The token-accounting invariant of the context manager: the incremental
counter equals the sum of the token counts of the items currently held. -/
def ContextManager.wf (cm : ContextManager) : Prop :=
  cm.currentTokens = tokenSum cm.items

/-- Concatenation of a list of strings, used to describe the prompt body. -/
def joinAll : List String → String
  | [] => ""
  | s :: rest => s ++ joinAll rest

/-- A manager holding a single aged history item, exhibiting relevance decay
below the 0.1 floor. -/
def agingDemo : ContextManager :=
  { maxTokens := 100, currentTokens := 1, relevanceDecay := 0.9,
    items := [{ ID := "h", type := ContextType.history, Content := "c",
                Timestamp := 0, Relevance := 0.6, TokenCount := 1,
                IsEssential := false }] }

/-- A manager under budget holding one essential system item. -/
def optimizeDemo : ContextManager :=
  { maxTokens := 10, currentTokens := 1, relevanceDecay := 0.9,
    items := [{ ID := "s", type := ContextType.system, Content := "abcd",
                Timestamp := 0, Relevance := 1.0, TokenCount := 1,
                IsEssential := true }] }

/-- A two-token manager after inserting an eight-byte non-essential history
fragment under id x. -/
def replaceTight : ContextManager :=
  (NewContextManager 2).AddContext 0 "x" ContextType.history "aaaaaaaa" false

/-- The same insertion repeated with a sixteen-byte content under the same
id, which overflows the budget and triggers the optimize pass. -/
def replaceTightTwice : ContextManager :=
  replaceTight.AddContext 0 "x" ContextType.history "aaaaaaaaaaaaaaaa" false

/-- A roomy manager holding one two-token fragment under id x. -/
def replaceRoomy : ContextManager :=
  { maxTokens := 100, currentTokens := 2, relevanceDecay := 0.9,
    items := [{ ID := "x", type := ContextType.history, Content := "aaaaaaaa",
                Timestamp := 0, Relevance := 0.6, TokenCount := 2,
                IsEssential := false }] }

end Intel

namespace Command

/-- Packing a valid codepoint and reading it back is the identity. -/
theorem charOfNat_toNat {n : Nat} (h : n.isValidChar) : (Char.ofNat n).toNat = n := by
  unfold Char.ofNat
  rw [dif_pos h]
  rfl

/-- Lowercasing a character twice is the same as lowercasing it once. -/
theorem charToLower_idem (c : Char) : c.toLower.toLower = c.toLower := by
  unfold Char.toLower
  by_cases h : c.toNat ≥ 65 ∧ c.toNat ≤ 90
  · rw [if_pos h]
    have hv : (c.toNat + 32).isValidChar := Or.inl (by omega)
    rw [charOfNat_toNat hv]
    rw [if_neg (by omega)]
  · rw [if_neg h, if_neg h]

/-- Lowercasing a string is idempotent. -/
theorem strToLower_idem (s : String) : strToLower (strToLower s) = strToLower s := by
  unfold strToLower
  have hf : Char.toLower ∘ Char.toLower = Char.toLower := funext charToLower_idem
  show String.mk ((s.data.map Char.toLower).map Char.toLower) = _
  rw [List.map_map, hf]

/-- Claim C6 (counterexample): a command registered under the uppercase name
A is not found by Execute even on the name A itself, because Execute
lowercases the lookup key while Register stores the key verbatim; the
returned value is the unknown-command error, not the handler result. -/
theorem C6_counterexample :
    ((NewRegistry.Register "A" sampleHandler "d").Execute "A" []).2 =
      some ("unknown command: A. Type 'help' for a list of commands") ∧
    sampleHandler.Execute [] = none :=
  ⟨rfl, rfl⟩

/-- Claim C6 (amended): for a command registered under an already-lowercase
name, Execute on any case variant of that name (any string whose lowercase
form is the lowercase form of the name) finds the command and returns the
handler result verbatim. -/
theorem C6_execute_case_variant (r : Registry) (name : String)
    (handler : Handler) (description : String) (variant : String)
    (args : List String) (hlow : strToLower name = name)
    (hvar : strToLower variant = strToLower name) :
    ((r.Register name handler description).Execute variant args).2 =
      handler.Execute args := by
  unfold Registry.Execute Registry.Register mapUpdate
  rw [hvar, hlow]
  simp

/-- Claim C6 (witness): the amended statement at the registered name go and
the variant GO. -/
theorem C6_witness :
    ((NewRegistry.Register "go" sampleHandler "d").Execute "GO" []).2 =
      sampleHandler.Execute [] :=
  C6_execute_case_variant NewRegistry "go" sampleHandler "d" "GO" []
    (by decide) (by decide)

/-- Claim C7: Execute on a name no case variant of which is registered
returns a non-nil error whose message contains the attempted name, and
leaves the registry (in particular its command map) unchanged. -/
theorem C7_execute_unknown (r : Registry) (name : String) (args : List String)
    (habs : ∀ k : String, (r.commands k).isSome = true →
      strToLower k ≠ strToLower name) :
    (r.Execute name args).1 = r ∧
    ∃ pre post, (r.Execute name args).2 = some (pre ++ name ++ post) := by
  have hnone : r.commands (strToLower name) = none := by
    cases hk : r.commands (strToLower name) with
    | none => rfl
    | some c =>
      exact absurd (strToLower_idem name)
        (habs (strToLower name) (by rw [hk]; rfl))
  unfold Registry.Execute
  rw [hnone]
  exact ⟨rfl, "unknown command: ", ". Type 'help' for a list of commands", rfl⟩

/-- Claim C7 (witness): the statement on a registry holding only the command
go, executed on the unregistered name nope. -/
theorem C7_witness :
    ((NewRegistry.Register "go" sampleHandler "d").Execute "nope" []).1 =
      NewRegistry.Register "go" sampleHandler "d" ∧
    ∃ pre post,
      ((NewRegistry.Register "go" sampleHandler "d").Execute "nope" []).2 =
        some (pre ++ "nope" ++ post) :=
  C7_execute_unknown (NewRegistry.Register "go" sampleHandler "d") "nope" []
    (by
      intro k hk
      by_cases h : k = "go"
      · subst h; decide
      · exfalso
        simp [Registry.Register, NewRegistry, mapUpdate, h] at hk)

/-- Claim C8: after any sequence of builder calls, Build maps every
registered argument position to an entry whose flag map binds every flag
held by the builder to its registered option list. -/
theorem C8_build_flags (ops : List BuilderOp) (pos : Int) (flag : String)
    (options : List String)
    (hpos : ((runOps ops).completions pos).isSome = true)
    (hflag : (runOps ops).flags flag = some options) :
    ∃ entry, (runOps ops).Build pos = some entry ∧
      entry.Flags flag = some options := by
  cases hc : (runOps ops).completions pos with
  | none => rw [hc] at hpos; simp at hpos
  | some completion =>
    refine ⟨{ completion with Flags := fun f =>
        match (runOps ops).flags f with
        | some o => some o
        | none => completion.Flags f }, ?_, ?_⟩
    · unfold CompletionBuilder.Build
      rw [hc]
      rfl
    · show (match (runOps ops).flags flag with
        | some o => some o
        | none => completion.Flags flag) = some options
      rw [hflag]

/-- Claim C8 (witness): a builder with positions 0 and 1 and flag --x yields
--x with its option list in the entries of both positions. -/
theorem C8_witness :
    (∃ entry, (runOps twoPositionsOneFlag).Build 0 = some entry ∧
      entry.Flags "--x" = some ["a"]) ∧
    (∃ entry, (runOps twoPositionsOneFlag).Build 1 = some entry ∧
      entry.Flags "--x" = some ["a"]) :=
  ⟨C8_build_flags twoPositionsOneFlag 0 "--x" ["a"] rfl rfl,
   C8_build_flags twoPositionsOneFlag 1 "--x" ["a"] rfl rfl⟩

/-- Claim C10: AddDynamicFlag invokes its generator exactly once, at
registration time, and the resulting builder is the one obtained by AddFlag
with the pre-computed list; Build of the two builders agrees, and Build
itself (a pure function of the stored lists) never re-invokes a generator. -/
theorem C10_dynamic_flag_once (cb : CompletionBuilder) (flag : String)
    (generator : Unit → List String) (calls : Nat) :
    cb.AddDynamicFlag flag generator = cb.AddFlag flag (generator ()) ∧
    AddDynamicFlagCounted cb flag (countedGen generator) calls =
      (cb.AddFlag flag (generator ()), calls + 1) ∧
    (cb.AddDynamicFlag flag generator).Build =
      (cb.AddFlag flag (generator ())).Build :=
  ⟨rfl, rfl, rfl⟩

end Command

namespace Intel

theorem tokenSum_nil : tokenSum [] = 0 := rfl

theorem tokenSum_cons (x : ContextItem) (l : List ContextItem) :
    tokenSum (x :: l) = x.TokenCount + tokenSum l := by
  simp [tokenSum]

theorem tokenSum_append (l₁ l₂ : List ContextItem) :
    tokenSum (l₁ ++ l₂) = tokenSum l₁ + tokenSum l₂ := by
  simp [tokenSum]

theorem tokenSum_perm {l₁ l₂ : List ContextItem} (h : l₁.Perm l₂) :
    tokenSum l₁ = tokenSum l₂ :=
  (h.map ContextItem.TokenCount).sum_eq

theorem ageItem_TokenCount (now : ℚ) (item : ContextItem) :
    (ageItem now item).TokenCount = item.TokenCount := rfl

theorem ageItem_IsEssential (now : ℚ) (item : ContextItem) :
    (ageItem now item).IsEssential = item.IsEssential := rfl

theorem tokenSum_map_ageItem (now : ℚ) (l : List ContextItem) :
    tokenSum (l.map (ageItem now)) = tokenSum l := by
  induction l with
  | nil => rfl
  | cons x xs ih => simp [tokenSum_cons, ih, ageItem_TokenCount]

theorem removeFirstById_tokenSum (id : String) (l : List ContextItem) :
    tokenSum (removeFirstById id l).2 = tokenSum l - (removeFirstById id l).1 := by
  induction l with
  | nil => simp [removeFirstById, tokenSum_nil]
  | cons x xs ih =>
    by_cases hx : x.ID = id
    · simp [removeFirstById, hx, tokenSum_cons]
    · simp only [removeFirstById, hx, if_false, tokenSum_cons, ih]
      ring

theorem pruneAux_tokenSum (cutoff : ℚ) (l : List ContextItem) :
    tokenSum (pruneAux cutoff l).2 = tokenSum l - (pruneAux cutoff l).1 := by
  induction l with
  | nil => simp [pruneAux, tokenSum_nil]
  | cons x xs ih =>
    by_cases hx : x.type = ContextType.history ∧ x.Timestamp < cutoff ∧
        x.IsEssential = false
    · simp only [pruneAux, if_pos hx, tokenSum_cons, ih]
      ring
    · simp only [pruneAux, if_neg hx, tokenSum_cons, ih]
      ring

theorem removeLastNonEssential_none_iff (l : List ContextItem) :
    removeLastNonEssential l = none ↔ ∀ x ∈ l, x.IsEssential = true := by
  induction l with
  | nil => simp [removeLastNonEssential]
  | cons x xs ih =>
    cases hx : removeLastNonEssential xs with
    | some r =>
      simp only [removeLastNonEssential, hx]
      constructor
      · intro h; exact absurd h (by simp)
      · intro h
        have : ∀ y ∈ xs, y.IsEssential = true := fun y hy => h y (List.mem_cons_of_mem x hy)
        rw [ih.mpr this] at hx
        exact absurd hx (by simp)
    | none =>
      simp only [removeLastNonEssential, hx]
      by_cases he : x.IsEssential
      · simp only [if_pos he]
        simp only [List.mem_cons, true_iff]
        intro y hy
        rcases hy with rfl | hy
        · exact he
        · exact ih.mp hx y hy
      · simp only [if_neg he]
        constructor
        · intro h; exact absurd h (by simp)
        · intro h
          exact absurd (h x (List.mem_cons_self x xs)) (by simpa using he)

theorem removeLastNonEssential_some_spec :
    ∀ {l : List ContextItem} {it : ContextItem} {rest : List ContextItem},
      removeLastNonEssential l = some (it, rest) →
      ∃ l₁ l₂, l = l₁ ++ it :: l₂ ∧ rest = l₁ ++ l₂ ∧ it.IsEssential = false ∧
        ∀ y ∈ l₂, y.IsEssential = true
  | [], it, rest, h => by simp [removeLastNonEssential] at h
  | x :: xs, it, rest, h => by
    cases hx : removeLastNonEssential xs with
    | some r =>
      rw [removeLastNonEssential, hx] at h
      have hit : r.1 = it := by injection h with h1; exact congrArg Prod.fst h1
      have hrest : x :: r.2 = rest := by injection h with h1; exact congrArg Prod.snd h1
      obtain ⟨l₁, l₂, hsplit, hr2, hness, hl₂⟩ :=
        removeLastNonEssential_some_spec
          (show removeLastNonEssential xs = some (r.1, r.2) by rw [hx])
      subst hit
      refine ⟨x :: l₁, l₂, ?_, ?_, hness, hl₂⟩
      · rw [hsplit]; rfl
      · rw [← hrest, hr2]; rfl
    | none =>
      rw [removeLastNonEssential, hx] at h
      by_cases he : x.IsEssential
      · rw [if_pos he] at h; exact absurd h (by simp)
      · rw [if_neg he] at h
        have hit : x = it := by injection h with h1; exact congrArg Prod.fst h1
        have hrest : xs = rest := by injection h with h1; exact congrArg Prod.snd h1
        subst hit; subst hrest
        exact ⟨[], xs, rfl, rfl, by simpa using he,
          (removeLastNonEssential_none_iff xs).mp hx⟩

end Intel

namespace Intel

instance : IsTotal ContextItem optLE := by
  constructor
  intro a b
  by_cases h : a.IsEssential = b.IsEssential
  · rcases le_total a.Relevance b.Relevance with hr | hr
    · exact Or.inr (Or.inl ⟨h.symm, hr⟩)
    · exact Or.inl (Or.inl ⟨h, hr⟩)
  · cases ha : a.IsEssential with
    | true => exact Or.inl (Or.inr ⟨ha, by revert h; cases b.IsEssential <;> simp [ha]⟩)
    | false => exact Or.inr (Or.inr ⟨by revert h; cases b.IsEssential <;> simp [ha], ha⟩)

instance : IsTrans ContextItem optLE := by
  constructor
  intro a b c hab hbc
  rcases hab with ⟨hab1, hab2⟩ | ⟨hab1, hab2⟩ <;>
    rcases hbc with ⟨hbc1, hbc2⟩ | ⟨hbc1, hbc2⟩
  · exact Or.inl ⟨hab1.trans hbc1, hbc2.trans hab2⟩
  · exact Or.inr ⟨hab1.trans hbc1, hbc2⟩
  · exact Or.inr ⟨hab1, hbc1 ▸ hab2⟩
  · exact absurd hbc1 (by rw [hab2]; simp)

theorem evictLoop_spec (target : Int) :
    ∀ (fuel : Nat) (cur : Int) (items : List ContextItem),
      items.length ≤ fuel → List.Sorted optLE items →
      ∃ removed : List ContextItem,
        items.Perm ((evictLoop target fuel cur items).2 ++ removed) ∧
        (∀ y ∈ removed, y.IsEssential = false) ∧
        List.Pairwise (fun a b => a.Relevance ≤ b.Relevance) removed ∧
        (∀ y ∈ removed, ∀ s ∈ (evictLoop target fuel cur items).2,
          s.IsEssential = false → y.Relevance ≤ s.Relevance) ∧
        (evictLoop target fuel cur items).1 = cur - tokenSum removed ∧
        List.Sorted optLE (evictLoop target fuel cur items).2 ∧
        ((evictLoop target fuel cur items).1 ≤ target ∨
          ∀ s ∈ (evictLoop target fuel cur items).2, s.IsEssential = true) := by
  intro fuel
  induction fuel with
  | zero =>
    intro cur items hlen _
    have : items = [] := List.length_eq_zero.mp (Nat.le_zero.mp hlen)
    subst this
    refine ⟨[], ?_, ?_, ?_, ?_, ?_, ?_, ?_⟩ <;>
      simp [evictLoop, tokenSum_nil]
  | succ fuel ih =>
    intro cur items hlen hsort
    by_cases hcond : target < cur ∧ items ≠ []
    · cases hrm : removeLastNonEssential items with
      | none =>
        have hres : evictLoop target (fuel + 1) cur items = (cur, items) := by
          rw [evictLoop, if_pos hcond, hrm]
        rw [hres]
        exact ⟨[], by simp, by simp, by simp, by simp,
          by simp [tokenSum_nil], hsort,
          Or.inr ((removeLastNonEssential_none_iff items).mp hrm)⟩
      | some r =>
        have hres : evictLoop target (fuel + 1) cur items =
            evictLoop target fuel (cur - r.1.TokenCount) r.2 := by
          rw [evictLoop, if_pos hcond, hrm]
        obtain ⟨l₁, l₂, hsplit, hr2, hness, hl₂⟩ :=
          removeLastNonEssential_some_spec (by rw [hrm])
        have hlen2 : r.2.length ≤ fuel := by
          have h1 : items.length = l₁.length + 1 + l₂.length := by
            rw [hsplit]; simp; omega
          have h2 : r.2.length = l₁.length + l₂.length := by
            rw [hr2]; simp
          omega
        have hsub : r.2.Sublist items := by
          rw [hsplit, hr2]
          exact (List.sublist_cons_self r.1 l₂).append_left l₁
        have hsort2 : List.Sorted optLE r.2 := hsort.sublist hsub
        have hkey : ∀ y ∈ r.2, y.IsEssential = false →
            r.1.Relevance ≤ y.Relevance := by
          intro y hy hyness
          rw [hr2] at hy
          rcases List.mem_append.mp hy with hy1 | hy2
          · have hpair : optLE y r.1 := by
              rw [hsplit] at hsort
              have := (List.pairwise_append.mp hsort).2.2
              exact this y hy1 r.1 (List.mem_cons_self r.1 l₂)
            rcases hpair with ⟨_, hrel⟩ | ⟨hyt, _⟩
            · exact hrel
            · rw [hyness] at hyt; exact absurd hyt (by simp)
          · exact absurd (hl₂ y hy2) (by rw [hyness]; simp)
        obtain ⟨removed, ihPerm, ihNE, ihPW, ihMin, ihTok, ihSort, ihPost⟩ :=
          ih (cur - r.1.TokenCount) r.2 hlen2 hsort2
        have hmemr2 : ∀ y ∈ removed, y ∈ r.2 := by
          intro y hy
          exact ihPerm.symm.subset (List.mem_append_right _ hy)
        have hmemfin : ∀ s ∈ (evictLoop target fuel (cur - r.1.TokenCount) r.2).2,
            s ∈ r.2 := by
          intro s hs
          exact ihPerm.symm.subset (List.mem_append_left _ hs)
        rw [hres]
        refine ⟨r.1 :: removed, ?_, ?_, ?_, ?_, ?_, ihSort, ihPost⟩
        · have hp1 : items.Perm (r.1 :: r.2) := by
            rw [hsplit, hr2]
            exact List.perm_middle
          have hp2 : (r.1 :: r.2).Perm
              (r.1 :: ((evictLoop target fuel (cur - r.1.TokenCount) r.2).2 ++ removed)) :=
            ihPerm.cons r.1
          have hp3 : (r.1 :: ((evictLoop target fuel (cur - r.1.TokenCount) r.2).2 ++
              removed)).Perm
              ((evictLoop target fuel (cur - r.1.TokenCount) r.2).2 ++ r.1 :: removed) :=
            List.perm_middle.symm
          exact hp1.trans (hp2.trans hp3)
        · intro y hy
          rcases List.mem_cons.mp hy with rfl | hy
          · exact hness
          · exact ihNE y hy
        · refine List.Pairwise.cons ?_ ihPW
          intro y hy
          exact hkey y (hmemr2 y hy) (ihNE y hy)
        · intro y hy s hs hsness
          rcases List.mem_cons.mp hy with rfl | hy
          · exact hkey s (hmemfin s hs) hsness
          · exact ihMin y hy s hs hsness
        · rw [ihTok, tokenSum_cons]
          ring
    · have hres : evictLoop target (fuel + 1) cur items = (cur, items) := by
        rw [evictLoop, if_neg hcond]
      rw [hres]
      refine ⟨[], by simp, by simp, by simp, by simp, by simp [tokenSum_nil],
        hsort, ?_⟩
      rcases not_and_or.mp hcond with h | h
      · exact Or.inl (le_of_not_lt h)
      · have : items = [] := not_not.mp h
        subst this
        exact Or.inr (by simp)

end Intel

namespace Intel

/-- Claim C1: after optimize, either the tracked token total is at most 80
percent of the configured maximum (stated multiplied out to avoid division)
or every remaining item is essential; the items removed are exactly a
non-essential multiset evicted in ascending order of relevance, each no more
relevant than any surviving non-essential item; and when every item is
essential the item count is unchanged. -/
theorem C1_optimize_evicts (cm : ContextManager) (now : ℚ)
    (hmax : 0 ≤ cm.maxTokens) :
    (5 * (cm.optimize now).currentTokens ≤ 4 * cm.maxTokens ∨
      ∀ item ∈ (cm.optimize now).items, item.IsEssential = true) ∧
    (∃ removed : List ContextItem,
      (cm.updateRelevanceScores now).items.Perm
        ((cm.optimize now).items ++ removed) ∧
      (∀ y ∈ removed, y.IsEssential = false) ∧
      List.Pairwise (fun a b => a.Relevance ≤ b.Relevance) removed ∧
      (∀ y ∈ removed, ∀ s ∈ (cm.optimize now).items, s.IsEssential = false →
        y.Relevance ≤ s.Relevance)) ∧
    ((∀ item ∈ cm.items, item.IsEssential = true) →
      (cm.optimize now).items.length = cm.items.length) := by
  have hsorted : List.Sorted optLE
      (List.insertionSort optLE (cm.updateRelevanceScores now).items) :=
    List.sorted_insertionSort optLE _
  have hperm0 : (List.insertionSort optLE (cm.updateRelevanceScores now).items).Perm
      (cm.updateRelevanceScores now).items :=
    List.perm_insertionSort optLE _
  obtain ⟨removed, hPerm, hNE, hPW, hMin, hTok, hSort, hPost⟩ :=
    evictLoop_spec (evictTarget cm.maxTokens)
      (List.insertionSort optLE (cm.updateRelevanceScores now).items).length
      cm.currentTokens
      (List.insertionSort optLE (cm.updateRelevanceScores now).items)
      (le_refl _) hsorted
  have hitems : (cm.optimize now).items =
      (evictLoop (evictTarget cm.maxTokens)
        (List.insertionSort optLE (cm.updateRelevanceScores now).items).length
        cm.currentTokens
        (List.insertionSort optLE (cm.updateRelevanceScores now).items)).2 := rfl
  have hcur : (cm.optimize now).currentTokens =
      (evictLoop (evictTarget cm.maxTokens)
        (List.insertionSort optLE (cm.updateRelevanceScores now).items).length
        cm.currentTokens
        (List.insertionSort optLE (cm.updateRelevanceScores now).items)).1 := rfl
  refine ⟨?_, ⟨removed, ?_, hNE, hPW, ?_⟩, ?_⟩
  · rcases hPost with h | h
    · left
      have h5 : (cm.optimize now).currentTokens ≤ evictTarget cm.maxTokens := by
        rw [hcur]; exact h
      unfold evictTarget at h5
      omega
    · right
      rw [hitems]
      exact h
  · rw [hitems]
    exact hperm0.symm.trans hPerm
  · rw [hitems]
    exact hMin
  · intro hall
    have haged : ∀ y ∈ (cm.updateRelevanceScores now).items, y.IsEssential = true := by
      intro y hy
      obtain ⟨x, hx, rfl⟩ := List.mem_map.mp hy
      rw [ageItem_IsEssential]
      exact hall x hx
    have hrem_nil : removed = [] := by
      rw [List.eq_nil_iff_forall_not_mem]
      intro y hy
      have hyin : y ∈ (cm.updateRelevanceScores now).items :=
        (hperm0.symm.trans hPerm).symm.subset (List.mem_append_right _ hy)
      have := haged y hyin
      rw [hNE y hy] at this
      exact absurd this (by simp)
    have hlen1 : (List.insertionSort optLE (cm.updateRelevanceScores now).items).length =
        (cm.optimize now).items.length := by
      rw [hitems]
      have := hPerm.length_eq
      rw [hrem_nil] at this
      simpa using this
    have hlen2 : (cm.updateRelevanceScores now).items.length = cm.items.length :=
      List.length_map cm.items (ageItem now)
    rw [← hlen1, hperm0.length_eq, hlen2]

/-- Claim C1 (witness): the statement at a concrete under-budget manager
holding one essential system item. -/
theorem C1_witness :
    0 ≤ optimizeDemo.maxTokens ∧
    ((5 * (optimizeDemo.optimize 0).currentTokens ≤ 4 * optimizeDemo.maxTokens ∨
      ∀ item ∈ (optimizeDemo.optimize 0).items, item.IsEssential = true) ∧
     (∃ removed : List ContextItem,
       (optimizeDemo.updateRelevanceScores 0).items.Perm
         ((optimizeDemo.optimize 0).items ++ removed) ∧
       (∀ y ∈ removed, y.IsEssential = false) ∧
       List.Pairwise (fun a b => a.Relevance ≤ b.Relevance) removed ∧
       (∀ y ∈ removed, ∀ s ∈ (optimizeDemo.optimize 0).items,
         s.IsEssential = false → y.Relevance ≤ s.Relevance)) ∧
     ((∀ item ∈ optimizeDemo.items, item.IsEssential = true) →
       (optimizeDemo.optimize 0).items.length = optimizeDemo.items.length)) :=
  ⟨by decide, C1_optimize_evicts optimizeDemo 0 (by decide)⟩

theorem optimize_wf (cm : ContextManager) (now : ℚ) (h : cm.wf) :
    (cm.optimize now).wf := by
  have hsorted : List.Sorted optLE
      (List.insertionSort optLE (cm.updateRelevanceScores now).items) :=
    List.sorted_insertionSort optLE _
  have hperm0 : (List.insertionSort optLE (cm.updateRelevanceScores now).items).Perm
      (cm.updateRelevanceScores now).items :=
    List.perm_insertionSort optLE _
  obtain ⟨removed, hPerm, _, _, _, hTok, _, _⟩ :=
    evictLoop_spec (evictTarget cm.maxTokens)
      (List.insertionSort optLE (cm.updateRelevanceScores now).items).length
      cm.currentTokens
      (List.insertionSort optLE (cm.updateRelevanceScores now).items)
      (le_refl _) hsorted
  unfold ContextManager.wf at h ⊢
  have hitems_eq : (cm.updateRelevanceScores now).items = cm.items.map (ageItem now) :=
    rfl
  have hsum : tokenSum (List.insertionSort optLE (cm.updateRelevanceScores now).items) =
      cm.currentTokens := by
    rw [tokenSum_perm hperm0, hitems_eq, tokenSum_map_ageItem]
    exact h.symm
  have hsplit := tokenSum_perm hPerm
  rw [tokenSum_append] at hsplit
  show (evictLoop (evictTarget cm.maxTokens)
      (List.insertionSort optLE (cm.updateRelevanceScores now).items).length
      cm.currentTokens
      (List.insertionSort optLE (cm.updateRelevanceScores now).items)).1 =
    tokenSum (evictLoop (evictTarget cm.maxTokens)
      (List.insertionSort optLE (cm.updateRelevanceScores now).items).length
      cm.currentTokens
      (List.insertionSort optLE (cm.updateRelevanceScores now).items)).2
  omega

theorem wf_removeItem (cm : ContextManager) (id : String) (h : cm.wf) :
    (cm.removeItem id).wf := by
  unfold ContextManager.wf at h ⊢
  unfold ContextManager.removeItem
  dsimp only
  rw [removeFirstById_tokenSum]
  omega

/-- Claim C3: starting from a fresh manager, the running token counter
equals the sum of the stored token counts, and every public operation
preserves that invariant. -/
theorem C3_token_invariant (cm : ContextManager) (now : ℚ) (id : String)
    (ty : ContextType) (content : String) (ess : Bool) (m : Int) (q : String)
    (pt : PromptType) (hwf : cm.wf) :
    (NewContextManager m).wf ∧
    (cm.AddContext now id ty content ess).wf ∧
    cm.Clear.wf ∧
    (cm.PruneHistory now).wf ∧
    (cm.SetMaxTokens now m).wf ∧
    ((cm.BuildPrompt now q pt).2).wf := by
  refine ⟨rfl, ?_, rfl, ?_, ?_, ?_⟩
  · have h1 : (cm.removeItem id).wf := wf_removeItem cm id hwf
    unfold ContextManager.AddContext
    dsimp only
    have h2 : ({ cm.removeItem id with
        items := (cm.removeItem id).items ++
          [{ ID := id, type := ty, Content := content, Timestamp := now,
             Relevance := calculateInitialRelevance ty,
             TokenCount := cm.estimateTokens content, IsEssential := ess }],
        currentTokens := (cm.removeItem id).currentTokens +
          cm.estimateTokens content } : ContextManager).wf := by
      unfold ContextManager.wf at h1 ⊢
      dsimp only
      rw [tokenSum_append, tokenSum_cons, tokenSum_nil]
      dsimp only
      omega
    split_ifs with hov
    · exact optimize_wf _ now h2
    · exact h2
  · unfold ContextManager.wf at hwf ⊢
    unfold ContextManager.PruneHistory
    dsimp only
    rw [pruneAux_tokenSum]
    omega
  · unfold ContextManager.SetMaxTokens
    dsimp only
    have h1 : ({ cm with maxTokens := m } : ContextManager).wf := hwf
    split_ifs with hov
    · exact optimize_wf _ now h1
    · exact h1
  · unfold ContextManager.wf at hwf ⊢
    show cm.currentTokens = tokenSum (cm.items.map (ageItem now))
    rw [tokenSum_map_ageItem]
    exact hwf

/-- Claim C3 (witness): the invariant statement at a fresh manager with a
concrete insertion. -/
theorem C3_witness :
    (NewContextManager 100).wf ∧
    ((NewContextManager 100).wf ∧
     ((NewContextManager 100).AddContext 0 "a" ContextType.system "abc" false).wf ∧
     (NewContextManager 100).Clear.wf ∧
     ((NewContextManager 100).PruneHistory 0).wf ∧
     ((NewContextManager 100).SetMaxTokens 0 5).wf ∧
     (((NewContextManager 100).BuildPrompt 0 "q" "analyze").2).wf) :=
  ⟨rfl, C3_token_invariant (NewContextManager 100) 0 "a" ContextType.system
    "abc" false 5 "q" "analyze" rfl⟩

end Intel

namespace Intel

theorem removeFirstById_filter (id : String) :
    ∀ l : List ContextItem, (l.filter (fun it => it.ID == id)).length = 1 →
      (removeFirstById id l).2.filter (fun it => it.ID == id) = [] := by
  intro l
  induction l with
  | nil => intro h; simp at h
  | cons x xs ih =>
    intro h
    rw [List.filter_cons] at h
    by_cases hx : x.ID = id
    · rw [if_pos (by simpa using hx)] at h
      simp only [removeFirstById, if_pos hx]
      have hz : (xs.filter (fun it => it.ID == id)).length = 0 := by
        simpa using h
      exact List.length_eq_zero.mp hz
    · rw [if_neg (by simpa using hx)] at h
      simp only [removeFirstById, if_neg hx]
      rw [List.filter_cons]
      rw [if_neg (by simpa using hx)]
      exact ih h

/-- Claim C2 (counterexample): replacing the two-token fragment under id x
by a four-token one in a two-token-budget manager triggers the optimize
pass, which evicts the freshly inserted non-essential fragment: afterwards
no item with id x remains (not exactly one) and the token total is 0, not
the four-token estimate of the new content. -/
theorem C2_counterexample :
    (replaceTight.items.filter (fun it => it.ID == "x")).length = 1 ∧
    (replaceTightTwice.items.filter (fun it => it.ID == "x")).length = 0 ∧
    replaceTightTwice.currentTokens = 0 := by
  refine ⟨by decide, by decide, by decide⟩

/-- Claim C2 (amended): when exactly one item with the given id exists (as
in every reachable state) and the total after the replacement does not
exceed the budget (so no optimize pass runs), AddContext leaves exactly the
newly inserted item under that id and the token total counts only the new
content estimate. -/
theorem C2_add_replaces (cm : ContextManager) (now : ℚ) (id : String)
    (ty : ContextType) (content : String) (ess : Bool)
    (hone : (cm.items.filter (fun it => it.ID == id)).length = 1)
    (hfits : (cm.removeItem id).currentTokens + cm.estimateTokens content ≤
      cm.maxTokens) :
    ((cm.AddContext now id ty content ess).items.filter
        (fun it => it.ID == id)) =
      [{ ID := id, type := ty, Content := content, Timestamp := now,
         Relevance := calculateInitialRelevance ty,
         TokenCount := cm.estimateTokens content, IsEssential := ess }] ∧
    (cm.AddContext now id ty content ess).currentTokens =
      (cm.removeItem id).currentTokens + cm.estimateTokens content := by
  unfold ContextManager.AddContext
  dsimp only
  rw [if_neg (not_lt.mpr (show (cm.removeItem id).currentTokens +
    cm.estimateTokens content ≤ (cm.removeItem id).maxTokens from hfits))]
  constructor
  · rw [List.filter_append]
    have h1 : (cm.removeItem id).items.filter (fun it => it.ID == id) = [] :=
      removeFirstById_filter id cm.items hone
    rw [h1]
    rw [List.filter_cons]
    simp
  · rfl

/-- Claim C2 (witness): the amended statement at a roomy manager holding one
fragment under id x. -/
theorem C2_witness :
    (replaceRoomy.items.filter (fun it => it.ID == "x")).length = 1 ∧
    (replaceRoomy.removeItem "x").currentTokens +
      replaceRoomy.estimateTokens "bbbb" ≤ replaceRoomy.maxTokens ∧
    (((replaceRoomy.AddContext 0 "x" ContextType.history "bbbb" false).items.filter
        (fun it => it.ID == "x")) =
      [{ ID := "x", type := ContextType.history, Content := "bbbb",
         Timestamp := 0,
         Relevance := calculateInitialRelevance ContextType.history,
         TokenCount := replaceRoomy.estimateTokens "bbbb",
         IsEssential := false }] ∧
     (replaceRoomy.AddContext 0 "x" ContextType.history "bbbb" false).currentTokens =
       (replaceRoomy.removeItem "x").currentTokens +
         replaceRoomy.estimateTokens "bbbb") :=
  ⟨by decide, by decide,
   C2_add_replaces replaceRoomy 0 "x" ContextType.history "bbbb" false
     (by decide) (by decide)⟩

end Intel

namespace Intel

theorem getTypePriority_injective (s t : ContextType)
    (h : getTypePriority s = getTypePriority t) : s = t := by
  cases s <;> cases t <;> first
    | rfl
    | (exfalso; revert h; decide)

theorem promptLE_iff (a b : ContextItem) :
    promptLE a b ↔ (getTypePriority b.type < getTypePriority a.type ∨
      (a.type = b.type ∧ b.Relevance ≤ a.Relevance)) := by
  unfold promptLE
  constructor
  · rintro (⟨ht, hr⟩ | ⟨hne, hle⟩)
    · exact Or.inr ⟨ht, hr⟩
    · refine Or.inl (lt_of_le_of_ne hle ?_)
      intro heq
      exact hne (getTypePriority_injective a.type b.type heq.symm)
  · rintro (hlt | ⟨ht, hr⟩)
    · refine Or.inr ⟨?_, le_of_lt hlt⟩
      intro heq
      rw [heq] at hlt
      exact lt_irrefl _ hlt
    · exact Or.inl ⟨ht, hr⟩

instance : IsTotal ContextItem promptLE := by
  constructor
  intro a b
  by_cases h : a.type = b.type
  · rcases le_total a.Relevance b.Relevance with hr | hr
    · exact Or.inr (Or.inl ⟨h.symm, hr⟩)
    · exact Or.inl (Or.inl ⟨h, hr⟩)
  · rcases le_total (getTypePriority b.type) (getTypePriority a.type) with hp | hp
    · exact Or.inl (Or.inr ⟨h, hp⟩)
    · exact Or.inr (Or.inr ⟨Ne.symm h, hp⟩)

instance : IsTrans ContextItem promptLE := by
  constructor
  intro a b c hab hbc
  rw [promptLE_iff] at hab hbc ⊢
  rcases hab with hab | ⟨hab1, hab2⟩ <;> rcases hbc with hbc | ⟨hbc1, hbc2⟩
  · exact Or.inl (lt_trans hbc hab)
  · exact Or.inl (by rw [← hbc1]; exact hab)
  · exact Or.inl (by rw [hab1]; exact hbc)
  · exact Or.inr ⟨hab1.trans hbc1, hbc2.trans hab2⟩

theorem stringAppendEmpty (s : String) : s ++ "" = s := by
  cases s with
  | mk data =>
    show String.mk (data ++ []) = String.mk data
    rw [List.append_nil]

theorem buildBody_foldl (l : List ContextItem) :
    ∀ acc : String,
      l.foldl (fun acc item =>
        if item.type = ContextType.user then acc
        else acc ++ item.Content ++ "\n\n") acc =
      acc ++ joinAll ((l.filter
        (fun item => !(item.type == ContextType.user))).map
        (fun item => item.Content ++ "\n\n")) := by
  induction l with
  | nil =>
    intro acc
    simp only [List.foldl_nil, List.filter_nil, List.map_nil, joinAll]
    exact (stringAppendEmpty acc).symm
  | cons x xs ih =>
    intro acc
    rw [List.foldl_cons]
    by_cases hx : x.type = ContextType.user
    · rw [if_pos hx, ih]
      congr 1
      rw [List.filter_cons]
      rw [if_neg (by simp [hx])]
    · rw [if_neg hx, ih]
      rw [List.filter_cons]
      rw [if_pos (by simp [hx])]
      simp only [List.map_cons, joinAll]
      simp [String.append_assoc]

/-- Claim C4: BuildPrompt returns the double-newline concatenation of the
contents of the non-user items of the relevance-updated manager, taken in a
sorted order (by type priority descending, ties by relevance descending,
over a permutation of the items), followed by the exact trailing query
section; the priority order is system, domain, prompt, state, history,
user. -/
theorem C4_buildPrompt_spec (cm : ContextManager) (now : ℚ) (q : String)
    (pt : PromptType) :
    (cm.BuildPrompt now q pt).1 =
      joinAll (((List.insertionSort promptLE
          (cm.updateRelevanceScores now).items).filter
          (fun item => !(item.type == ContextType.user))).map
        (fun item => item.Content ++ "\n\n")) ++
        "Query: " ++ q ++ "\n\nResponse:" ∧
    List.Sorted promptLE
      (List.insertionSort promptLE (cm.updateRelevanceScores now).items) ∧
    (List.insertionSort promptLE (cm.updateRelevanceScores now).items).Perm
      (cm.updateRelevanceScores now).items ∧
    (∀ a b : ContextItem, promptLE a b ↔
      (getTypePriority b.type < getTypePriority a.type ∨
        (a.type = b.type ∧ b.Relevance ≤ a.Relevance))) ∧
    (getTypePriority ContextType.domain < getTypePriority ContextType.system ∧
     getTypePriority ContextType.prompt < getTypePriority ContextType.domain ∧
     getTypePriority ContextType.state < getTypePriority ContextType.prompt ∧
     getTypePriority ContextType.history < getTypePriority ContextType.state ∧
     getTypePriority ContextType.user < getTypePriority ContextType.history) := by
  refine ⟨?_, List.sorted_insertionSort promptLE _,
    List.perm_insertionSort promptLE _, promptLE_iff, by decide⟩
  unfold ContextManager.BuildPrompt
  dsimp only
  rw [buildBody_foldl]
  rfl

end Intel

namespace Intel

/-- Claim C5 (counterexample): the 0.1 floor applies to the decay factor,
not to the relevance itself.  A history item of relevance 0.6 aged 120
minutes gets factor max(0.1, 1 - 2 * 0.5) = 0.1 and ends with relevance
0.06, strictly below 0.1. -/
theorem C5_counterexample :
    ∃ item ∈ (agingDemo.updateRelevanceScores 120).items,
      item.Relevance < 0.1 := by
  refine ⟨ageItem 120
    { ID := "h", type := ContextType.history, Content := "c", Timestamp := 0,
      Relevance := 0.6, TokenCount := 1, IsEssential := false }, ?_, ?_⟩
  · simp [agingDemo, ContextManager.updateRelevanceScores]
  · unfold ageItem decayAgeFactor
    norm_num

theorem decayAgeFactor_floor (ty : ContextType) (age : ℚ) :
    0.1 ≤ decayAgeFactor ty age := by
  unfold decayAgeFactor
  dsimp only
  split_ifs with h
  · exact le_refl 0.1
  · exact le_of_not_lt h

/-- Claim C5 (amended): after an aging pass the decay factor (not the
relevance) is floored at 0.1; system and domain items keep their relevance
unchanged; and at equal age and equal nonnegative relevance, history items
decay at the fastest rate, state items at the slowest, with the default
types (prompt and user) in between. -/
theorem C5_decay_spec (age rel : ℚ) (hage : 0 ≤ age) (hrel : 0 ≤ rel) :
    (∀ ty : ContextType, 0.1 ≤ decayAgeFactor ty age) ∧
    (∀ (now : ℚ) (item : ContextItem),
      item.type = ContextType.system ∨ item.type = ContextType.domain →
      (ageItem now item).Relevance = item.Relevance) ∧
    (decayAgeFactor ContextType.history age ≤
       decayAgeFactor ContextType.prompt age ∧
     decayAgeFactor ContextType.user age =
       decayAgeFactor ContextType.prompt age ∧
     decayAgeFactor ContextType.prompt age ≤
       decayAgeFactor ContextType.state age) ∧
    (rel * decayAgeFactor ContextType.history age ≤
       rel * decayAgeFactor ContextType.prompt age ∧
     rel * decayAgeFactor ContextType.prompt age ≤
       rel * decayAgeFactor ContextType.state age) := by
  have hhp : decayAgeFactor ContextType.history age ≤
      decayAgeFactor ContextType.prompt age := by
    unfold decayAgeFactor
    dsimp only
    split_ifs with h1 h2 <;> linarith
  have hps : decayAgeFactor ContextType.prompt age ≤
      decayAgeFactor ContextType.state age := by
    unfold decayAgeFactor
    dsimp only
    split_ifs with h1 h2 <;> linarith
  refine ⟨fun ty => decayAgeFactor_floor ty age, ?_, ⟨hhp, rfl, hps⟩,
    mul_le_mul_of_nonneg_left hhp hrel, mul_le_mul_of_nonneg_left hps hrel⟩
  intro now item hty
  unfold ageItem decayAgeFactor
  rcases hty with h | h <;> rw [h] <;> dsimp only <;> norm_num

/-- Claim C5 (witness): the amended statement at age 120 minutes and
relevance 0.6. -/
theorem C5_witness :
    0 ≤ (120 : ℚ) ∧ 0 ≤ (0.6 : ℚ) ∧
    ((∀ ty : ContextType, 0.1 ≤ decayAgeFactor ty 120) ∧
     (∀ (now : ℚ) (item : ContextItem),
       item.type = ContextType.system ∨ item.type = ContextType.domain →
       (ageItem now item).Relevance = item.Relevance) ∧
     (decayAgeFactor ContextType.history 120 ≤
        decayAgeFactor ContextType.prompt 120 ∧
      decayAgeFactor ContextType.user 120 =
        decayAgeFactor ContextType.prompt 120 ∧
      decayAgeFactor ContextType.prompt 120 ≤
        decayAgeFactor ContextType.state 120) ∧
     (0.6 * decayAgeFactor ContextType.history 120 ≤
        0.6 * decayAgeFactor ContextType.prompt 120 ∧
      0.6 * decayAgeFactor ContextType.prompt 120 ≤
        0.6 * decayAgeFactor ContextType.state 120)) :=
  ⟨by norm_num, by norm_num, C5_decay_spec 120 0.6 (by norm_num) (by norm_num)⟩

end Intel

namespace Intel

theorem modelScore_ge_five (preferFast : Bool) (preferredSpecialty : String)
    (model : ModelInfo) : 5 ≤ modelScore preferFast preferredSpecialty model := by
  unfold modelScore
  split_ifs <;> omega

theorem selectFold_fst_mono (systemRAM : Int) (preferFast : Bool)
    (preferredSpecialty : String) :
    ∀ (l : List ModelInfo) (best : Int × String),
      best.1 ≤ (l.foldl (selectStep systemRAM preferFast preferredSpecialty) best).1 := by
  intro l
  induction l with
  | nil => intro best; exact le_refl _
  | cons x xs ih =>
    intro best
    rw [List.foldl_cons]
    refine le_trans ?_ (ih (selectStep systemRAM preferFast preferredSpecialty best x))
    unfold selectStep
    dsimp only
    split_ifs with h1 h2
    · exact le_of_lt h2
    · exact le_refl _
    · exact le_refl _

theorem selectFold_reaches (systemRAM : Int) (preferFast : Bool)
    (preferredSpecialty : String) :
    ∀ (l : List ModelInfo) (best : Int × String),
      (∃ m ∈ l, m.MinRAM ≤ systemRAM) →
      5 ≤ (l.foldl (selectStep systemRAM preferFast preferredSpecialty) best).1 := by
  intro l
  induction l with
  | nil => intro best h; simp at h
  | cons x xs ih =>
    intro best h
    rw [List.foldl_cons]
    rcases h with ⟨m, hm, hfit⟩
    rcases List.mem_cons.mp hm with rfl | hm
    · refine le_trans ?_ (selectFold_fst_mono systemRAM preferFast
        preferredSpecialty xs (selectStep systemRAM preferFast preferredSpecialty best m))
      unfold selectStep
      dsimp only
      rw [if_pos hfit]
      split_ifs with h2
      · exact modelScore_ge_five preferFast preferredSpecialty m
      · exact le_trans (modelScore_ge_five preferFast preferredSpecialty m)
          (le_of_not_lt h2)
    · exact ih _ ⟨m, hm, hfit⟩

theorem selectFold_names (systemRAM : Int) (preferFast : Bool)
    (preferredSpecialty : String) :
    ∀ (l : List ModelInfo) (best : Int × String),
      (l.foldl (selectStep systemRAM preferFast preferredSpecialty) best) = best ∨
      ∃ m ∈ l,
        (l.foldl (selectStep systemRAM preferFast preferredSpecialty) best).2 =
          m.Name ∧ m.MinRAM ≤ systemRAM := by
  intro l
  induction l with
  | nil => intro best; exact Or.inl rfl
  | cons x xs ih =>
    intro best
    rw [List.foldl_cons]
    by_cases hfit : x.MinRAM ≤ systemRAM
    · by_cases hsc : best.1 < modelScore preferFast preferredSpecialty x
      · have hstep : selectStep systemRAM preferFast preferredSpecialty best x =
            (modelScore preferFast preferredSpecialty x, x.Name) := by
          unfold selectStep
          dsimp only
          rw [if_pos hfit, if_pos hsc]
        rcases ih (selectStep systemRAM preferFast preferredSpecialty best x) with
          heq | ⟨m, hm, hname, hmfit⟩
        · refine Or.inr ⟨x, List.mem_cons_self x xs, ?_, hfit⟩
          rw [heq, hstep]
        · exact Or.inr ⟨m, List.mem_cons_of_mem x hm, hname, hmfit⟩
      · have hstep : selectStep systemRAM preferFast preferredSpecialty best x =
            best := by
          unfold selectStep
          dsimp only
          rw [if_pos hfit, if_neg hsc]
        rw [hstep]
        rcases ih best with heq | ⟨m, hm, hname, hmfit⟩
        · exact Or.inl heq
        · exact Or.inr ⟨m, List.mem_cons_of_mem x hm, hname, hmfit⟩
    · have hstep : selectStep systemRAM preferFast preferredSpecialty best x =
          best := by
        unfold selectStep
        dsimp only
        rw [if_neg hfit]
      rw [hstep]
      rcases ih best with heq | ⟨m, hm, hname, hmfit⟩
      · exact Or.inl heq
      · exact Or.inr ⟨m, List.mem_cons_of_mem x hm, hname, hmfit⟩

/-- Claim C9 (counterexample): with 1GB of estimated RAM no catalog model
fits, and AutoSelectModel falls back to phi3:3.8b, whose declared minimum
RAM of 4GB exceeds the estimated RAM — so the returned model is not one
whose MinRAM is at most the estimate. -/
theorem C9_counterexample :
    AutoSelectModel 1 [] = "phi3:3.8b" ∧
    ∀ m ∈ RecommendedModels, m.Name = "phi3:3.8b" → ¬ m.MinRAM ≤ 1 := by
  exact ⟨by decide, by decide⟩

/-- Claim C9 (amended): whenever at least one catalog model fits the
estimated system RAM, AutoSelectModel returns the name of a catalog entry
that fits; non-fitting models are skipped outright by the scoring step, and
a fitting model whose score does not exceed the incumbent one leaves the
incumbent (the first-seen entry) in place.  When no model fits, the
fallback may return a model that does not fit, as the counterexample
shows. -/
theorem C9_autoselect_fits (systemRAM : Int) (preferences : List String)
    (hfit : ∃ m ∈ RecommendedModels, m.MinRAM ≤ systemRAM) :
    (∃ m ∈ RecommendedModels,
      AutoSelectModel systemRAM preferences = m.Name ∧
      m.MinRAM ≤ systemRAM) ∧
    (∀ (preferFast : Bool) (preferredSpecialty : String) (best : Int × String)
      (m : ModelInfo), ¬ m.MinRAM ≤ systemRAM →
      selectStep systemRAM preferFast preferredSpecialty best m = best) ∧
    (∀ (preferFast : Bool) (preferredSpecialty : String) (best : Int × String)
      (m : ModelInfo), m.MinRAM ≤ systemRAM →
      modelScore preferFast preferredSpecialty m ≤ best.1 →
      selectStep systemRAM preferFast preferredSpecialty best m = best) := by
  refine ⟨?_, ?_, ?_⟩
  · have h5 := selectFold_reaches systemRAM (decide (systemRAM < 8))
      (preferredSpecialtyOf preferences) RecommendedModels (-1, "") hfit
    rcases selectFold_names systemRAM (decide (systemRAM < 8))
      (preferredSpecialtyOf preferences) RecommendedModels (-1, "") with
      heq | ⟨m, hm, hname, hmfit⟩
    · rw [heq] at h5
      exact absurd h5 (by norm_num)
    · refine ⟨m, hm, ?_, hmfit⟩
      have hne : ¬ m.Name = "" := by
        revert hm
        have : ∀ x ∈ RecommendedModels, ¬ x.Name = "" := by decide
        exact fun hm => this m hm
      unfold AutoSelectModel
      dsimp only
      rw [hname, if_neg hne]
  · intro preferFast preferredSpecialty best m hm
    unfold selectStep
    dsimp only
    rw [if_neg hm]
  · intro preferFast preferredSpecialty best m hm hsc
    unfold selectStep
    dsimp only
    rw [if_pos hm, if_neg (not_lt.mpr hsc)]

/-- Claim C9 (witness): the amended statement at 8GB of estimated RAM and an
empty preference list. -/
theorem C9_witness :
    (∃ m ∈ RecommendedModels, m.MinRAM ≤ (8 : Int)) ∧
    ((∃ m ∈ RecommendedModels,
       AutoSelectModel 8 [] = m.Name ∧ m.MinRAM ≤ (8 : Int)) ∧
     (∀ (preferFast : Bool) (preferredSpecialty : String) (best : Int × String)
       (m : ModelInfo), ¬ m.MinRAM ≤ (8 : Int) →
       selectStep 8 preferFast preferredSpecialty best m = best) ∧
     (∀ (preferFast : Bool) (preferredSpecialty : String) (best : Int × String)
       (m : ModelInfo), m.MinRAM ≤ (8 : Int) →
       modelScore preferFast preferredSpecialty m ≤ best.1 →
       selectStep 8 preferFast preferredSpecialty best m = best)) :=
  ⟨by decide, C9_autoselect_fits 8 [] (by decide)⟩

end Intel
